import Mathlib

/-!
# Verification of the Outlook MCP string-protocol bridge

Shallow embedding of the string-level core of the `claude-outlook-mcp`
repository: the shared helpers in `helpers.ts` (recipient parsing, folder
reference building, AppleScript escaping, delimited-output parsing) and the
script-generation fragments of `index.ts` (`sendEmail`, `replyEmail`,
`searchEmails`, `countEmails`, `readEmails`, the `empty_trash` validation).

JavaScript strings are modelled as Lean `String` (lists of characters);
JavaScript `split` on a one-character separator is `List.splitOn` on the
character list, `split` on a multi-character separator is `splitOnSeq`
below, and `trim` is `trimList` (dropping ASCII whitespace from both ends,
which is what JS `trim` does on the ASCII inputs relevant here).
-/

namespace OutlookMcp

/-- ASCII whitespace, the fragment of the JS `trim` character class that
matters for the inputs in this development. -/
def isWS (c : Char) : Bool :=
  c = ' ' || c = '\t' || c = '\n' || c = '\r'

/-- JS `String.prototype.trim`: drop whitespace from both ends. -/
def trimList (l : List Char) : List Char :=
  ((l.dropWhile isWS).reverse.dropWhile isWS).reverse

/-- JS `String.prototype.trim` at the `String` level. -/
def trimStr (s : String) : String :=
  ⟨trimList s.data⟩

/-- Fuel-driven worker for `splitOnSeq`.  Scans left to right; on finding
the separator sequence as a prefix it cuts, skips the separator, and
continues.  The fuel only serves to make the recursion structural; it is
always called with enough fuel (the length of the list). -/
def splitOnSeqFuel (sep : List Char) : Nat → List Char → List (List Char)
  | _, [] => [[]]
  | 0, l => [l]
  | fuel + 1, a :: as =>
    if sep.isPrefixOf (a :: as) then
      [] :: splitOnSeqFuel sep fuel (List.drop (sep.length - 1) as)
    else
      match splitOnSeqFuel sep fuel as with
      | [] => [[a]]
      | h :: t => (a :: h) :: t

/-- JS `String.prototype.split` with a non-empty multi-character separator:
left-to-right scan, non-overlapping matches. -/
def splitOnSeq (sep l : List Char) : List (List Char) :=
  if sep.isEmpty then [l] else splitOnSeqFuel sep l.length l

/-- `List.intercalate` specialised to character lists, used to reassemble
the text around the first / last occurrence of a sentinel. -/
def intercalateSeq (sep : List Char) : List (List Char) → List Char
  | [] => []
  | [l] => l
  | l :: ls => l ++ sep ++ intercalateSeq sep ls

/-- JS `String.prototype.includes` for a non-empty separator, phrased via
the scanner: the separator occurs iff the split has at least two parts. -/
def containsSeq (sep l : List Char) : Bool :=
  2 ≤ (splitOnSeq sep l).length

/-! ## helpers.ts -/

/-- `helpers.ts` — `ParsedEmail`.  `messageId?: string` is `Option String`. -/
structure ParsedEmail where
  messageId : Option String
  subject : String
  sender : String
  dateSent : String
  content : String
  deriving DecidableEq

/-- `helpers.ts` — `EmailRecipient`. -/
structure EmailRecipient where
  name : String
  address : String
  deriving DecidableEq

/-- `helpers.ts` — `extractNameFromEmail`.  The source matches the regex
`/^([^<]+)</` (a non-empty run of non-`<` characters followed by `<`;
the greedy capture is exactly the text before the first `<`) and trims it;
otherwise it returns `email.split('@')[0]`, the text before the first `@`
(the whole string when there is no `@`). -/
def extractNameFromEmail (email : String) : String :=
  let before := email.data.takeWhile (fun c => c ≠ '<')
  if before.length < email.data.length ∧ before ≠ [] then
    ⟨trimList before⟩
  else
    ⟨(email.data.splitOn '@').headD []⟩

/-- `helpers.ts` — `parseRecipients`: split on `','`, trim each segment;
the address is the full trimmed segment, the name comes from
`extractNameFromEmail`. -/
def parseRecipients (emailString : String) : List EmailRecipient :=
  (emailString.data.splitOn ',').map fun email =>
    let trimmed : String := ⟨trimList email⟩
    { name := extractNameFromEmail trimmed, address := trimmed }

/-- `helpers.ts` — `buildFolderRef`: flat folder reference; the exact
literal `"Inbox"` maps to the built-in `inbox` token. -/
def buildFolderRef (folder : String) : String :=
  if folder = "Inbox" then "inbox" else "mail folder \"" ++ folder ++ "\""

/-- The loop body of `buildNestedFolderRef`: given the `/`-split segments,
start from the last segment and append one qualifier per preceding
segment, right to left (the source's `for (i = parts.length - 2; i >= 0;
i--)` loop). -/
def nestedRefOfParts (parts : List String) : String :=
  match parts.reverse with
  | [] => ""
  | [p] => "mail folder \"" ++ p ++ "\""
  | leaf :: rest =>
    rest.foldl (fun acc q => acc ++ " of mail folder \"" ++ q ++ "\"")
      ("mail folder \"" ++ leaf ++ "\"")

/-- `helpers.ts` — `buildNestedFolderRef`: `"Inbox"` maps to `inbox`; any
other path is split on `"/"`; a single segment gives a flat reference and
several segments give a nested reference built leaf-first. -/
def buildNestedFolderRef (path : String) : String :=
  if path = "Inbox" then "inbox"
  else nestedRefOfParts ((path.data.splitOn '/').map fun l => (⟨l⟩ : String))

/-- `helpers.ts` — `escapeForAppleScript`: first every backslash becomes
two backslashes, then every double quote becomes backslash-quote.  Both
JS `replace` calls have a single-character pattern, so they are
per-character substitutions. -/
def replaceChar (c : Char) (r : List Char) : List Char → List Char
  | [] => []
  | a :: as => if a = c then r ++ replaceChar c r as else a :: replaceChar c r as

/-- `helpers.ts` — `escapeForAppleScript`. -/
def escapeForAppleScript (str : String) : String :=
  ⟨replaceChar '\"' ['\\', '\"'] (replaceChar '\\' ['\\', '\\'] str.data)⟩

/-- The anchored match `/^(.*)Y/s` against `b` for a literal sentinel `Y`:
it succeeds iff `Y` occurs in `b`, and the greedy capture is everything
before the last occurrence of `Y`.  None of the sentinel literals used here
overlaps itself, so the scanner's occurrences are all occurrences. -/
def matchPrefixBefore (y b : List Char) : Option (List Char) :=
  match splitOnSeq y b with
  | [] => none
  | [_] => none
  | ps => some (intercalateSeq y ps.dropLast)

/-- The unanchored match `/X(.*)Y/s` against `b` for literal sentinels:
leftmost-longest, so it succeeds iff `Y` occurs after the first occurrence
of `X`, capturing from after that `X` up to the last following `Y`. -/
def matchBetween (x y b : List Char) : Option (List Char) :=
  match splitOnSeq x b with
  | [] => none
  | [_] => none
  | _ :: rest => matchPrefixBefore y (intercalateSeq x rest)

/-- `helpers.ts` — `parseEmailOutput`.  `now` stands for the value of
`new Date().toString()` taken when a date capture is missing.  Blocks are
obtained by splitting on the record-start sentinel and dropping blank
fragments; each block is decoded by the with-id pattern set when it
contains the id sentinel and by the legacy pattern set otherwise; a block
whose subject-boundary pattern fails is dropped. -/
def parseEmailOutput (raw : String) (now : String) : List ParsedEmail :=
  if trimList raw.data = [] then []
  else
    let messageBlocks :=
      (splitOnSeq "<<<MSG>>>".data raw.data).filter fun b => !(trimList b).isEmpty
    messageBlocks.filterMap fun block =>
      let hasId := containsSeq "<<<ID>>>".data block
      let subjectMatch :=
        if hasId then matchPrefixBefore "<<<ID>>>".data block
        else matchPrefixBefore "<<<FROM>>>".data block
      match subjectMatch with
      | none => none
      | some subj =>
        let idMatch :=
          if hasId then matchBetween "<<<ID>>>".data "<<<FROM>>>".data block
          else none
        let senderMatch := matchBetween "<<<FROM>>>".data "<<<DATE>>>".data block
        let dateMatch := matchBetween "<<<DATE>>>".data "<<<CONTENT>>>".data block
        let contentMatch := matchBetween "<<<CONTENT>>>".data "<<<ENDMSG>>>".data block
        let contentText := match contentMatch with | some c => trimList c | none => []
        some
          { messageId := match idMatch with | some i => some ⟨trimList i⟩ | none => none
            subject := if trimList subj = [] then "No subject" else ⟨trimList subj⟩
            sender := match senderMatch with | some s => ⟨trimList s⟩ | none => "Unknown sender"
            dateSent := match dateMatch with | some d => ⟨trimList d⟩ | none => now
            content := if contentText = [] then "[Content not available]" else ⟨contentText⟩ }

/-- The guard `if (!raw || raw.trim() === "")` of `parseEmailOutput` also
accepts `null`/`undefined` (both falsy); that case is modelled by `none`. -/
def parseEmailOutputOpt (raw : Option String) (now : String) : List ParsedEmail :=
  match raw with
  | none => []
  | some r => parseEmailOutput r now

/-! ## index.ts — folder resolution call sites

`searchEmails` (line 1207), `countEmails` (line 2535) and `readEmails`
(line 2608) all compute `const folderRef = buildFolderRef(folder)`, while
`createFolder`, `moveEmail`, `renameFolder` and `deleteFolder` compute
`buildNestedFolderRef(...)`. -/

/-- `index.ts` — the folder reference embedded by `searchEmails`. -/
def searchEmailsFolderRef (folder : String) : String :=
  buildFolderRef folder

/-- `index.ts` — the folder reference embedded by `countEmails`. -/
def countEmailsFolderRef (folder : String) : String :=
  buildFolderRef folder

/-- `index.ts` — the folder reference embedded by `readEmails`. -/
def readEmailsFolderRef (folder : String) : String :=
  buildFolderRef folder

/-- `index.ts` — the folder reference embedded by `moveEmail`. -/
def moveEmailFolderRef (targetFolder : String) : String :=
  buildNestedFolderRef targetFolder

/-! ## index.ts — sendEmail script fragments -/

/-- `index.ts` — `sendEmail`'s subject escape:
`const escapedSubject = subject.replace(/"/g, '\\"')` — quotes only, no
backslash doubling. -/
def sendEmailEscapedSubject (subject : String) : String :=
  ⟨replaceChar '\"' ['\\', '\"'] subject.data⟩

/-- `index.ts` — `sendEmail`'s body escape:
`body.replace(/\\/g, '\\\\').replace(/"/g, '\\"')`. -/
def sendEmailEscapedBody (body : String) : String :=
  ⟨replaceChar '\"' ['\\', '\"'] (replaceChar '\\' ['\\', '\\'] body.data)⟩

/-- `index.ts` — the per-recipient TO construction statements of the
primary send script (`script1`), one statement per parsed recipient:
`make new to recipient with properties {email address:{name:"…",
address:"…"}}` with both fields escaped. -/
def script1ToRecipientLines (toArg : String) : List String :=
  (parseRecipients toArg).map fun r =>
    "make new to recipient with properties \x7bemail address:\x7bname:\""
      ++ escapeForAppleScript r.name ++ "\", address:\""
      ++ escapeForAppleScript r.address ++ "\"\x7d\x7d"

/-- `index.ts` — the TO recipient statement of the manual-draft fallback
(`script3`): `set to recipients of newMessage to {"${to}"}` — the raw
comma-separated string, unparsed and unescaped, as one recipient. -/
def script3ToRecipientsLine (toArg : String) : String :=
  "set to recipients of newMessage to \x7b\"" ++ toArg ++ "\"\x7d"

/-! ## index.ts — replyEmail validation ordering -/

/-- `index.ts` — the `recipientOptions` parameter of `replyEmail`. -/
structure RecipientOptions where
  replyTo : Option String := none
  replyCc : Option String := none
  replyBcc : Option String := none
  addTo : Option String := none
  addCc : Option String := none
  addBcc : Option String := none
  removeTo : Option String := none
  removeCc : Option String := none
  removeBcc : Option String := none
  deriving DecidableEq

/-- JS truthiness of an optional string field: present and non-empty. -/
def truthy : Option String → Bool
  | none => false
  | some s => !s.isEmpty

/-- The externally visible steps of `replyEmail`, in program order. -/
inductive ReplyStep where
  | outlookCheck
  | validationError (msg : String)
  | runScript
  deriving DecidableEq

/-- `index.ts` — `replyEmail`'s control flow up to script dispatch: it
first runs `await checkOutlookAccess()` (which itself dispatches
AppleScript to check for and, if needed, launch Outlook), and only then
validates the conflicting recipient options, returning a descriptive
`"Error: …"` string on conflict; otherwise it proceeds to build and run
the reply script. -/
def replyEmailSteps (recipientOptions : Option RecipientOptions) : List ReplyStep :=
  ReplyStep.outlookCheck ::
    (match recipientOptions with
     | none => [ReplyStep.runScript]
     | some ro =>
       if truthy ro.replyTo && (truthy ro.addTo || truthy ro.removeTo) then
         [ReplyStep.validationError "Error: Cannot use replyTo with addTo or removeTo"]
       else if truthy ro.replyCc && (truthy ro.addCc || truthy ro.removeCc) then
         [ReplyStep.validationError "Error: Cannot use replyCc with addCc or removeCc"]
       else if truthy ro.replyBcc && (truthy ro.addBcc || truthy ro.removeBcc) then
         [ReplyStep.validationError "Error: Cannot use replyBcc with addBcc or removeBcc"]
       else [ReplyStep.runScript])

/-! ## index.ts — empty_trash validation -/

/-- The `preview`/`confirm` flags of an `empty_trash` request; an absent
field is `none` (absent and `false` are both falsy in the source's
checks). -/
structure EmptyTrashArgs where
  preview : Option Bool := none
  confirm : Option Bool := none
  deriving DecidableEq

/-- JS truthiness of an optional boolean field. -/
def truthyB : Option Bool → Bool
  | none => false
  | some b => b

/-- `index.ts` — the `empty_trash` arm of the `isMailArgs` type guard:
`if (!preview && !confirm) return false; if (preview && confirm) return
false`. -/
def isMailArgsEmptyTrash (a : EmptyTrashArgs) : Bool :=
  if !truthyB a.preview && !truthyB a.confirm then false
  else if truthyB a.preview && truthyB a.confirm then false
  else true

/-- Outcome of the `empty_trash` tool-call case: either a thrown
validation error (before `emptyTrash` is invoked) or the invocation of
`emptyTrash(args.preview === true)`. -/
inductive EmptyTrashOutcome where
  | rejected (msg : String)
  | invoked (preview : Bool)
  deriving DecidableEq

/-- `index.ts` — the `empty_trash` case of the tool-call handler: reject
with a descriptive error when neither or both flags are truthy, otherwise
invoke `emptyTrash(args.preview === true)`. -/
def emptyTrashHandler (a : EmptyTrashArgs) : EmptyTrashOutcome :=
  if !truthyB a.preview && !truthyB a.confirm then
    .rejected "empty_trash requires either preview: true or confirm: true"
  else if truthyB a.preview && truthyB a.confirm then
    .rejected "Cannot use both preview and confirm - use one at a time"
  else
    .invoked (a.preview = some true)

/-! ## Spec-side definitions (for refinement comparisons) -/

/-- Modelled from the spec (§4.3): the nested lookup expression for the
ordered segments of a multi-segment path — "the last segment is the
innermost/primary lookup and each preceding segment wraps it as a
containing-folder qualifier, applied right-to-left from leaf to root". -/
def specNestedRef : List String → String
  | [] => ""
  | [p] => "mail folder \"" ++ p ++ "\""
  | p :: rest => specNestedRef rest ++ " of mail folder \"" ++ p ++ "\""

/-! ## Shared lemmas -/

lemma mk_eq_empty_iff (l : List Char) : (⟨l⟩ : String) = "" ↔ l = [] := by
  constructor
  · intro h
    have := congrArg String.data h
    simpa using this
  · rintro rfl; rfl

lemma splitOn_ne_nil {α : Type} [DecidableEq α] (a : α) (l : List α) :
    l.splitOn a ≠ [] :=
  List.splitOnP_ne_nil _ l

lemma nestedRefOfParts_cons (p : String) (parts : List String) (h : parts ≠ []) :
    nestedRefOfParts (p :: parts) =
      nestedRefOfParts parts ++ " of mail folder \"" ++ p ++ "\"" := by
  obtain ⟨leaf, rest, hrev⟩ : ∃ leaf rest, parts.reverse = leaf :: rest := by
    cases hr : parts.reverse with
    | nil =>
      exact absurd (by simpa using congrArg List.reverse hr) h
    | cons a l => exact ⟨a, l, rfl⟩
  have hrev2 : (p :: parts).reverse = leaf :: (rest ++ [p]) := by
    simp [hrev]
  cases rest with
  | nil =>
    have hp : parts = [leaf] := by simpa using congrArg List.reverse hrev
    subst hp
    simp [nestedRefOfParts]
  | cons r rs =>
    simp only [nestedRefOfParts, hrev, hrev2, List.cons_append, List.foldl_append,
      List.foldl_cons, List.foldl_nil]

lemma nestedRefOfParts_eq_spec (parts : List String) (h : parts ≠ []) :
    nestedRefOfParts parts = specNestedRef parts := by
  induction parts with
  | nil => exact absurd rfl h
  | cons p rest ih =>
    cases rest with
    | nil => simp [nestedRefOfParts, specNestedRef]
    | cons q rs =>
      rw [nestedRefOfParts_cons p (q :: rs) (by simp), ih (by simp)]
      rfl

lemma buildNestedFolderRef_eq_spec (path : String) (h : path ≠ "Inbox") :
    buildNestedFolderRef path =
      specNestedRef ((path.data.splitOn '/').map fun l => (⟨l⟩ : String)) := by
  rw [buildNestedFolderRef, if_neg h]
  refine nestedRefOfParts_eq_spec _ ?_
  simp [splitOn_ne_nil '/' path.data]

lemma splitOn_eq_single_of_not_mem {α : Type} [DecidableEq α] {a : α} {l : List α}
    (h : a ∉ l) : l.splitOn a = [l] := by
  rw [List.splitOn]
  refine List.splitOnP_eq_single _ _ ?_
  intro x hx
  simp only [beq_iff_eq]
  rintro rfl
  exact h hx

lemma two_le_splitOn_length_of_mem {α : Type} [DecidableEq α] {a : α} {l : List α}
    (h : a ∈ l) : 2 ≤ (l.splitOn a).length := by
  induction l with
  | nil => simp at h
  | cons x xs ih =>
    rw [List.splitOn] at *
    rw [List.splitOnP_cons]
    by_cases hx : x = a
    · have : (xs.splitOnP fun b => b == a) ≠ [] := List.splitOnP_ne_nil _ xs
      simp only [hx, beq_self_eq_true, if_pos]
      cases hs : xs.splitOnP fun b => b == a with
      | nil => exact absurd hs this
      | cons y ys => simp
    · have hmem : a ∈ xs := by
        rcases List.mem_cons.mp h with h1 | h1
        · exact absurd h1.symm hx
        · exact h1
      have hb : (x == a) = false := beq_eq_false_iff_ne.mpr hx
      rw [hb]
      simpa [List.length_modifyHead] using ih hmem

lemma specNestedRef_data_of_mem_empty (parts : List String) (hne : parts ≠ [])
    (hmem : "" ∈ parts) :
    ∃ pre suf : List Char,
      (specNestedRef parts).data = pre ++ "mail folder \"\"".data ++ suf := by
  induction parts with
  | nil => exact absurd rfl hne
  | cons p rest ih =>
    cases rest with
    | nil =>
      have hp : "" = p := by simpa using hmem
      cases hp
      exact ⟨[], [], by decide⟩
    | cons q rs =>
      have harm : specNestedRef (p :: q :: rs)
          = specNestedRef (q :: rs) ++ " of mail folder \"" ++ p ++ "\"" := rfl
      rcases List.mem_cons.mp hmem with hp | hrest
      · cases hp
        refine ⟨(specNestedRef (q :: rs)).data ++ " of ".data, [], ?_⟩
        rw [harm]
        simp only [String.data_append, List.append_assoc, List.append_nil]
        congr 1
      · obtain ⟨pre, suf, hps⟩ := ih (by simp) hrest
        refine ⟨pre, suf ++ (" of mail folder \"" ++ p ++ "\"").data, ?_⟩
        rw [harm]
        simp [String.data_append, hps, List.append_assoc]

/-! ## Claim theorems -/

/-- C5: the canonical (nested-capable) folder resolver
`buildNestedFolderRef` maps the exact literal `"Inbox"` to the built-in
`inbox` token; any string without `"/"` — including `"inbox"` and
`"INBOX"` — to a flat named-folder lookup of that exact string; and any
string with `"/"` separators to a nested lookup whose innermost reference
is the last segment, qualified right-to-left by each preceding segment, to
arbitrary depth (`specNestedRef`, written from the spec's words). -/
theorem buildNestedFolderRef_canonical :
    buildNestedFolderRef "Inbox" = "inbox"
    ∧ (∀ path : String, path ≠ "Inbox" → '/' ∉ path.data →
        buildNestedFolderRef path = "mail folder \"" ++ path ++ "\"")
    ∧ (∀ path : String, '/' ∈ path.data →
        buildNestedFolderRef path =
          specNestedRef ((path.data.splitOn '/').map fun l => (⟨l⟩ : String))
        ∧ 2 ≤ (path.data.splitOn '/').length)
    ∧ buildNestedFolderRef "inbox" = "mail folder \"inbox\""
    ∧ buildNestedFolderRef "INBOX" = "mail folder \"INBOX\""
    ∧ buildNestedFolderRef "A/B/C" =
        "mail folder \"C\" of mail folder \"B\" of mail folder \"A\""
    ∧ buildNestedFolderRef "A/B/C/D" =
        "mail folder \"D\" of mail folder \"C\" of mail folder \"B\" of mail folder \"A\"" := by
  refine ⟨rfl, ?_, ?_, by decide, by decide, by decide, by decide⟩
  · intro path hne hmem
    rw [buildNestedFolderRef_eq_spec path hne, splitOn_eq_single_of_not_mem hmem]
    rfl
  · intro path hmem
    have hne : path ≠ "Inbox" := by
      rintro rfl
      revert hmem
      decide
    exact ⟨buildNestedFolderRef_eq_spec path hne, two_le_splitOn_length_of_mem hmem⟩

/-- Witness for C5 at concrete inputs: a flat name and a two-segment path. -/
theorem buildNestedFolderRef_canonical_witness :
    buildNestedFolderRef "Reports" = "mail folder \"Reports\""
    ∧ buildNestedFolderRef "Work/Reports" =
        specNestedRef ((("Work/Reports" : String).data.splitOn '/').map
          fun l => (⟨l⟩ : String)) := by
  constructor
  · exact buildNestedFolderRef_canonical.2.1 "Reports" (by decide) (by decide)
  · exact (buildNestedFolderRef_canonical.2.2.1 "Work/Reports" (by decide)).1

/-- C10: the nested resolver does not filter empty path segments — a
trailing slash or a double slash yields a lookup of an empty-named folder
(`mail folder ""`) at the corresponding nesting position, and in general
any split containing an empty segment embeds the text `mail folder ""`
in the generated reference. -/
theorem buildNestedFolderRef_empty_segments :
    buildNestedFolderRef "A/" = "mail folder \"\" of mail folder \"A\""
    ∧ buildNestedFolderRef "A//B" =
        "mail folder \"B\" of mail folder \"\" of mail folder \"A\""
    ∧ (∀ path : String, '/' ∈ path.data → [] ∈ path.data.splitOn '/' →
        ∃ pre suf : List Char,
          (buildNestedFolderRef path).data = pre ++ "mail folder \"\"".data ++ suf) := by
  refine ⟨by decide, by decide, ?_⟩
  intro path hmem hempty
  have hne : path ≠ "Inbox" := by
    rintro rfl
    revert hmem
    decide
  rw [buildNestedFolderRef_eq_spec path hne]
  refine specNestedRef_data_of_mem_empty _ ?_ ?_
  · simp [splitOn_ne_nil '/' path.data]
  · exact List.mem_map.mpr ⟨[], hempty, rfl⟩

/-- Witness for C10 at the trailing-slash input `"A/"`. -/
theorem buildNestedFolderRef_empty_segments_witness :
    ∃ pre suf : List Char,
      (buildNestedFolderRef "A/").data = pre ++ "mail folder \"\"".data ++ suf :=
  buildNestedFolderRef_empty_segments.2.2 "A/" (by decide) (by decide)

/-- C1 (evaluation of the defect): `searchEmails`, `countEmails` and
`readEmails` resolve their folder argument through the flat
`buildFolderRef`, so the multi-segment path `"Work/Reports"` is embedded
as the single literal folder name `mail folder "Work/Reports"`, while the
nested-capable resolver used by `moveEmail` produces the nested reference
`mail folder "Reports" of mail folder "Work"`. -/
theorem searchCountRead_use_flat_resolver :
    searchEmailsFolderRef "Work/Reports" = "mail folder \"Work/Reports\""
    ∧ countEmailsFolderRef "Work/Reports" = "mail folder \"Work/Reports\""
    ∧ readEmailsFolderRef "Work/Reports" = "mail folder \"Work/Reports\""
    ∧ moveEmailFolderRef "Work/Reports" =
        "mail folder \"Reports\" of mail folder \"Work\""
    ∧ searchEmailsFolderRef "Work/Reports" ≠ buildNestedFolderRef "Work/Reports" := by
  exact ⟨rfl, rfl, rfl, by decide, by decide⟩

/-- C2 (evaluation of the defect): the primary send tier explodes the
recipient list `"a@x.com, b@y.com"` into one escaped
recipient-construction statement per parsed recipient, but the final
manual-draft tier (`script3`) embeds the raw comma-separated string as
one single recipient. -/
theorem script3_embeds_raw_recipients :
    script1ToRecipientLines "a@x.com, b@y.com" =
      ["make new to recipient with properties \x7bemail address:\x7bname:\"a\", address:\"a@x.com\"\x7d\x7d",
       "make new to recipient with properties \x7bemail address:\x7bname:\"b\", address:\"b@y.com\"\x7d\x7d"]
    ∧ (parseRecipients "a@x.com, b@y.com").length = 2
    ∧ script3ToRecipientsLine "a@x.com, b@y.com" =
        "set to recipients of newMessage to \x7b\"a@x.com, b@y.com\"\x7d"
    ∧ (script1ToRecipientLines "a@x.com, b@y.com").length ≠ 1 := by
  exact ⟨by decide, by decide, rfl, by decide⟩

/-- C3 (evaluation of the defect): `sendEmail`'s subject escape only
escapes double quotes; a backslash in the subject is embedded undoubled,
whereas the shared `escapeForAppleScript` (which the claim requires)
doubles it. -/
theorem sendEmail_subject_escape_partial :
    sendEmailEscapedSubject "a\\b" = "a\\b"
    ∧ escapeForAppleScript "a\\b" = "a\\\\b"
    ∧ sendEmailEscapedSubject "a\\b" ≠ escapeForAppleScript "a\\b"
    ∧ sendEmailEscapedSubject "say \"hi\"" = "say \\\"hi\\\""
    ∧ sendEmailEscapedBody "a\\b" = "a\\\\b" := by
  exact ⟨by decide, by decide, by decide, by decide, by decide⟩

/-- A concrete conflicting recipient-option record: `replyTo` together
with `addTo`. -/
def conflictingRO : RecipientOptions :=
  { replyTo := some "a@x.com", addTo := some "b@y.com" }

/-- C4 counterexample: on a conflicting request (`replyTo` + `addTo`),
`replyEmail` does return the descriptive validation error, but its very
first step is the external Outlook-availability check (itself dispatched
AppleScript), so an external check runs before the validation — the
rejection does not precede every external call. -/
theorem replyEmail_check_precedes_validation :
    replyEmailSteps (some conflictingRO) =
      [ReplyStep.outlookCheck,
       ReplyStep.validationError "Error: Cannot use replyTo with addTo or removeTo"]
    ∧ (replyEmailSteps (some conflictingRO)).head? = some ReplyStep.outlookCheck := by
  exact ⟨by decide, by decide⟩

/-- C4 (amended): for every conflicting combination of an override with an
add/remove option for the same recipient class, `replyEmail` returns a
descriptive (non-empty, operation-specific) validation error and never
reaches the reply-script dispatch; the only external interaction that
precedes the validation is the Outlook-availability check. -/
theorem replyEmail_conflict_rejected (ro : RecipientOptions)
    (h : ((truthy ro.replyTo && (truthy ro.addTo || truthy ro.removeTo))
       || (truthy ro.replyCc && (truthy ro.addCc || truthy ro.removeCc))
       || (truthy ro.replyBcc && (truthy ro.addBcc || truthy ro.removeBcc))) = true) :
    ∃ msg, msg ≠ ""
      ∧ replyEmailSteps (some ro) =
          [ReplyStep.outlookCheck, ReplyStep.validationError msg]
      ∧ ReplyStep.runScript ∉ replyEmailSteps (some ro) := by
  by_cases h1 : (truthy ro.replyTo && (truthy ro.addTo || truthy ro.removeTo)) = true
  · refine ⟨"Error: Cannot use replyTo with addTo or removeTo", by decide, ?_, ?_⟩ <;>
      simp [replyEmailSteps, h1]
  · by_cases h2 : (truthy ro.replyCc && (truthy ro.addCc || truthy ro.removeCc)) = true
    · refine ⟨"Error: Cannot use replyCc with addCc or removeCc", by decide, ?_, ?_⟩ <;>
        simp [replyEmailSteps, h1, h2]
    · have h3 : (truthy ro.replyBcc && (truthy ro.addBcc || truthy ro.removeBcc)) = true := by
        simp only [Bool.or_eq_true] at h
        rcases h with (hh | hh) | hh
        · exact absurd hh h1
        · exact absurd hh h2
        · exact hh
      refine ⟨"Error: Cannot use replyBcc with addBcc or removeBcc", by decide, ?_, ?_⟩ <;>
        simp [replyEmailSteps, h1, h2, h3]

/-- Witness for C4's amended theorem at the concrete conflicting record. -/
theorem replyEmail_conflict_rejected_witness :
    ∃ msg, msg ≠ ""
      ∧ replyEmailSteps (some conflictingRO) =
          [ReplyStep.outlookCheck, ReplyStep.validationError msg]
      ∧ ReplyStep.runScript ∉ replyEmailSteps (some conflictingRO) :=
  replyEmail_conflict_rejected conflictingRO (by decide)

/-- C9: an `empty_trash` request is accepted exactly when one of the two
flags is truthy: the type guard admits it iff exactly one flag is set, and
the handler rejects neither-set and both-set requests with their
descriptive errors before `emptyTrash` is invoked, never silently. -/
theorem emptyTrash_requires_exactly_one_flag :
    ∀ a : EmptyTrashArgs,
      (emptyTrashHandler a =
          .rejected "empty_trash requires either preview: true or confirm: true"
        ↔ truthyB a.preview = false ∧ truthyB a.confirm = false)
      ∧ (emptyTrashHandler a =
          .rejected "Cannot use both preview and confirm - use one at a time"
        ↔ truthyB a.preview = true ∧ truthyB a.confirm = true)
      ∧ ((∃ p, emptyTrashHandler a = .invoked p) ↔ truthyB a.preview ≠ truthyB a.confirm)
      ∧ (isMailArgsEmptyTrash a = true ↔ truthyB a.preview ≠ truthyB a.confirm) := by
  intro a
  rcases a with ⟨p, c⟩
  rcases p with _ | (_ | _) <;> rcases c with _ | (_ | _) <;> decide

/-- Witness for C9 at a request setting only `preview`. -/
theorem emptyTrash_requires_exactly_one_flag_witness :
    isMailArgsEmptyTrash { preview := some true, confirm := none } = true
      ↔ truthyB (some true) ≠ truthyB none :=
  (emptyTrash_requires_exactly_one_flag { preview := some true, confirm := none }).2.2.2

/-- C7: `parseRecipients` splits strictly on `','` (one recipient per
segment, in input order), each address is the full trimmed segment
(preserving a `Display Name <address>` form), each name follows the
before-`<` / before-`@` rule of `extractNameFromEmail`, and the empty
input yields exactly one recipient with the empty address.  The function
is total (it never throws). -/
theorem parseRecipients_spec :
    parseRecipients "" = [{ name := "", address := "" }]
    ∧ parseRecipients "a@x.com, b@x.com" =
        [{ name := "a", address := "a@x.com" }, { name := "b", address := "b@x.com" }]
    ∧ parseRecipients "John Doe <john@x.com>" =
        [{ name := "John Doe", address := "John Doe <john@x.com>" }]
    ∧ (∀ s : String, (parseRecipients s).length = (s.data.splitOn ',').length)
    ∧ (∀ s : String, (parseRecipients s).map EmailRecipient.address =
        (s.data.splitOn ',').map fun seg => (⟨trimList seg⟩ : String))
    ∧ (∀ s : String, ∀ r ∈ parseRecipients s, r.name = extractNameFromEmail r.address) := by
  refine ⟨by decide, by decide, by decide, ?_, ?_, ?_⟩
  · intro s
    simp [parseRecipients]
  · intro s
    simp only [parseRecipients, List.map_map]
    rfl
  · intro s r hr
    simp only [parseRecipients, List.mem_map] at hr
    obtain ⟨seg, _, rfl⟩ := hr
    rfl

/-- Witness for C7's universally quantified conjuncts at a concrete input. -/
theorem parseRecipients_spec_witness :
    (parseRecipients "x@y.com").length = (("x@y.com" : String).data.splitOn ',').length
    ∧ ({ name := "x", address := "x@y.com" } : EmailRecipient).name =
        extractNameFromEmail "x@y.com" := by
  constructor
  · exact parseRecipients_spec.2.2.2.1 "x@y.com"
  · exact parseRecipients_spec.2.2.2.2.2 "x@y.com"
      { name := "x", address := "x@y.com" } (by decide)

/-- C8: the email-output parser is total and lenient — empty,
all-whitespace, and null/undefined input give the empty sequence, and a
fragment that fails the subject-boundary pattern is silently dropped while
well-formed fragments in the same input still produce their records. -/
theorem parseEmailOutput_lenient :
    parseEmailOutput "" "NOW" = []
    ∧ parseEmailOutput "   " "NOW" = []
    ∧ parseEmailOutputOpt none "NOW" = []
    ∧ (∀ raw now : String, trimList raw.data = [] → parseEmailOutput raw now = [])
    ∧ parseEmailOutput
        "<<<MSG>>>garbage<<<MSG>>>Subj<<<FROM>>>s<<<DATE>>>d<<<CONTENT>>>c<<<ENDMSG>>>" "NOW" =
        [{ messageId := none, subject := "Subj", sender := "s",
           dateSent := "d", content := "c" }] := by
  refine ⟨by decide, by decide, rfl, ?_, by decide⟩
  intro raw now h
  rw [parseEmailOutput, if_pos h]

/-- Witness for C8's universally quantified conjunct at a whitespace input. -/
theorem parseEmailOutput_lenient_witness :
    parseEmailOutput "  " "NOW" = [] :=
  parseEmailOutput_lenient.2.2.2.1 "  " "NOW" (by decide)

/-- C6: every record the email-output parser returns has a non-empty
subject and content; an empty captured subject becomes `"No subject"`, a
missing sender becomes `"Unknown sender"`, empty captured content becomes
`"[Content not available]"`, a missing date becomes the current-timestamp
fallback, and a block without the id sentinel yields `messageId = none`
(never the empty string). -/
theorem parseEmailOutput_defaults :
    (∀ raw now : String, ∀ e ∈ parseEmailOutput raw now, e.subject ≠ "" ∧ e.content ≠ "")
    ∧ parseEmailOutput "<<<MSG>>><<<FROM>>>s<<<DATE>>>d<<<CONTENT>>><<<ENDMSG>>>" "NOW" =
        [{ messageId := none, subject := "No subject", sender := "s",
           dateSent := "d", content := "[Content not available]" }]
    ∧ parseEmailOutput "<<<MSG>>>Subj<<<FROM>>>x" "NOW" =
        [{ messageId := none, subject := "Subj", sender := "Unknown sender",
           dateSent := "NOW", content := "[Content not available]" }]
    ∧ parseEmailOutput "<<<MSG>>>Subj<<<ID>>>42<<<FROM>>>s<<<DATE>>>d<<<CONTENT>>>c<<<ENDMSG>>>" "NOW" =
        [{ messageId := some "42", subject := "Subj", sender := "s",
           dateSent := "d", content := "c" }]
    ∧ parseEmailOutput "<<<MSG>>>Subj<<<FROM>>>s<<<DATE>>>d<<<CONTENT>>>c<<<ENDMSG>>>" "NOW" =
        [{ messageId := none, subject := "Subj", sender := "s",
           dateSent := "d", content := "c" }] := by
  refine ⟨?_, by decide, by decide, by decide, by decide⟩
  intro raw now e he
  rw [parseEmailOutput] at he
  split at he
  · simp at he
  · simp only [List.mem_filterMap] at he
    obtain ⟨block, hmem, hb⟩ := he
    split at hb
    · simp at hb
    · rename_i subj hsubj
      rw [Option.some.injEq] at hb
      subst hb
      constructor
      · dsimp only
        split
        · decide
        · rename_i hts
          exact fun hc => hts ((mk_eq_empty_iff _).mp hc)
      · dsimp only
        split
        · decide
        · rename_i hts
          exact fun hc => hts ((mk_eq_empty_iff _).mp hc)

/-- Witness for C6's universally quantified conjunct, applied to a record
actually produced by the parser on a concrete raw string. -/
theorem parseEmailOutput_defaults_witness :
    (ParsedEmail.mk none "Subj" "Unknown sender" "NOW" "[Content not available]").subject ≠ ""
    ∧ (ParsedEmail.mk none "Subj" "Unknown sender" "NOW" "[Content not available]").content ≠ "" :=
  parseEmailOutput_defaults.1 "<<<MSG>>>Subj<<<FROM>>>x" "NOW" _ (by decide)

end OutlookMcp
